import Mathlib

/-!
Verification of the Worker multi-agent node (`Worker_MultiAgents`) of this
repository: configuration validation, prompt-variable resolution and
substitution, agent construction (`createAgent`), and the agent invocation
wrapper (`agentNode`).

The JavaScript/TypeScript source is shallowly embedded: strings are Lean
strings, thrown exceptions become `Except String`, the abort signal becomes a
`Bool`, and the external LangChain model/agent objects become small records
carrying exactly the observable data the worker code reads from them.
-/

/-- The set of characters matched by the JavaScript regular expression
class `\s` (and likewise removed at the ends by `String.prototype.trim`):
whitespace and line terminators. -/
def jsIsWS (c : Char) : Bool :=
  c = ' ' || c = '\t' || c = '\n' || c = '\r' || c = '\x0b' || c = '\x0c' ||
  c = ' ' || c.toNat = 0x1680 || (0x2000 ≤ c.toNat && c.toNat ≤ 0x200a) ||
  c.toNat = 0x2028 || c.toNat = 0x2029 || c.toNat = 0x202f ||
  c.toNat = 0x205f || c.toNat = 0x3000 || c.toNat = 0xfeff

/-- ASCII lower-casing of one character, as `String.prototype.toLowerCase`
acts on the ASCII range (the only range the worker names in this code use). -/
def toLowerJS (c : Char) : Char :=
  if 65 ≤ c.toNat ∧ c.toNat ≤ 90 then Char.ofNat (c.toNat + 32) else c

/-- `workerLabel.toLowerCase()` on a whole string. -/
def lowerJS (s : String) : String :=
  String.mk (s.data.map toLowerJS)

/-- `.replace(/\s/g, '_')`: every whitespace character becomes an underscore. -/
def replaceWSUnderscore (s : String) : String :=
  String.mk (s.data.map (fun c => if jsIsWS c then '_' else c))

/-- `.trim()`: drop whitespace from both ends. -/
def trimJS (s : String) : String :=
  String.mk (((s.data.dropWhile jsIsWS).reverse.dropWhile jsIsWS).reverse)

/-- Line 96 of the worker source:
`workerLabel.toLowerCase().replace(/\s/g, '_').trim()`. -/
def normalizeWorkerName (s : String) : String :=
  trimJS (replaceWSUnderscore (lowerJS s))

/-- State machine of the placeholder scanner: `acc = none` means we are
outside a placeholder, `acc = some cs` means we are inside one and `cs` holds
the name characters read so far, in reverse.  An opening brace always starts
a (new) placeholder; a closing brace ends the current one, emitting its name. -/
def extractVarsAux : List Char → Option (List Char) → List String
  | [], _ => []
  | c :: cs, acc =>
    if c = '{' then extractVarsAux cs (some [])
    else if c = '}' then
      match acc with
      | some name => String.mk name.reverse :: extractVarsAux cs none
      | none => extractVarsAux cs none
    else
      match acc with
      | some name => extractVarsAux cs (some (c :: name))
      | none => extractVarsAux cs none

/-- Deduplication keeping the first occurrence of each name;
`seen` accumulates the names already emitted. -/
def dedupAux : List String → List String → List String
  | [], _ => []
  | x :: xs, seen => if x ∈ seen then dedupAux xs seen else x :: dedupAux xs (x :: seen)

/-- Modelled from the spec: the repository function `getInputVariables`
(imported by the worker source from `src/utils`, which is not part of the
provided sources) "extracts `{placeholder}` tokens from a user-supplied
prompt string", returning "the ordered set of referenced names"
(spec sections 2 and 4.1). -/
def getInputVariables (s : String) : List String :=
  dedupAux (extractVarsAux s.data none) []

/-- `String.prototype.replaceAll` with a plain (non-pattern) search string and
a replacement containing no `$` substitution directives: replace every
occurrence of `pat`, scanning left to right, never rescanning replaced text.
An empty search string is treated as matching nowhere (the worker only ever
searches for `{name}`, which is never empty). -/
def replaceAllL (s pat rep : List Char) : List Char :=
  match s with
  | [] => []
  | c :: cs =>
    if pat ≠ [] ∧ pat.isPrefixOf (c :: cs) then
      rep ++ replaceAllL ((c :: cs).drop pat.length) pat rep
    else
      c :: replaceAllL cs pat rep
termination_by s.length
decreasing_by
  · simp only [List.length_drop]
    rename_i h
    have hp : pat.length ≤ (c :: cs).length := List.IsPrefix.length_le (List.isPrefixOf_iff_prefix.mp h.2)
    have hne : 0 < pat.length := List.length_pos.mpr h.1
    omega
  · simp [Nat.lt_succ_self]

/-- `replaceAllL` lifted to `String`. -/
def replaceAllStr (s pat rep : String) : String :=
  String.mk (replaceAllL s.data pat.data rep.data)

/-- Substring containment test (`String.prototype.includes`). -/
def containsSubL (s pat : List Char) : Bool :=
  match s with
  | [] => pat.isEmpty
  | _ :: cs => pat.isPrefixOf s || containsSubL cs pat

/-- `containsSubL` lifted to `String`. -/
def containsSubStr (s pat : String) : Bool :=
  containsSubL s.data pat.data

/-- `workerInputVariablesValues[inputVariable]` with JavaScript semantics:
a missing key reads as `undefined`, which `replaceAll` then coerces to the
string `"undefined"` (the worker only reads keys it has checked are present). -/
def lookupJS (V : List (String × String)) (k : String) : String :=
  match V.find? (fun p => p.1 = k) with
  | some p => p.2
  | none => "undefined"

/-- Line 112 of the worker source:
`workerInputVariables.every((element) => Object.keys(workerInputVariablesValues).includes(element))`. -/
def checkInputVariables (vars : List String) (V : List (String × String)) : Bool :=
  vars.all (fun e => (V.map Prod.fst).contains e)

/-- Lines 116-118 of the worker source: for each extracted input variable in
order, `workerPrompt = workerPrompt.replaceAll('{v}', value_of_v)`. -/
def substitutePrompt (T : String) (vars : List String) (V : List (String × String)) : String :=
  vars.foldl (fun p v => replaceAllStr p ("\x7b" ++ v ++ "\x7d") (lookupJS V v)) T

/-- An external tool capability; the worker code only passes tools through,
so only an identifying name is modelled. -/
structure Tool where
  name : String
deriving DecidableEq, Repr

/-- A chat model as the worker code observes it: an identity, and the
optional `bindTools` operation (`none` models `llm.bindTools === undefined`,
i.e. a model without tool/function binding). -/
structure ChatModel where
  modelId : Nat
  bindTools : Option Nat := none
deriving DecidableEq, Repr

/-- The already-configured supervisor node, of which the worker reads
`supervisor.llm` and `supervisor.name`. -/
structure Supervisor where
  name : Option String
  llm : ChatModel
deriving DecidableEq, Repr

/-- The `promptValues` input: a `json`-typed field holding either a raw
string (to be parsed) or an already-parsed object. -/
inductive PromptValuesField where
  | str (s : String)
  | obj (o : List (String × String))
deriving DecidableEq, Repr

/-- The fields of `nodeData.inputs` that `Worker_MultiAgents.init` reads.
`workerName = none` models an absent input, `some ""` an empty one; `tools`
is the already-flattened tool list (`flatten(tools)`). -/
structure NodeInputs where
  tools : List Tool
  workerPrompt : String
  workerName : Option String
  supervisor : Supervisor
  maxIterations : Option String
  model : Option ChatModel
  promptValues : Option PromptValuesField
deriving DecidableEq, Repr

/-- The value `createAgent` returns: with tools, an `AgentExecutor` over the
tool-bound model (the tool loop); without tools, the plain
prompt → model → string-parser `RunnableSequence`.  Each constructor records
the model the chain was built from, the combined system prompt, and (for the
executor) the tools and raw iteration cap. -/
inductive AgentOrChain where
  | executor (llm : ChatModel) (tools : List Tool) (systemPrompt : String)
      (maxIterations : Option String)
  | chain (llm : ChatModel) (systemPrompt : String)
deriving DecidableEq, Repr

/-- The model recorded inside the constructed agent. -/
def AgentOrChain.llm : AgentOrChain → ChatModel
  | .executor m _ _ _ => m
  | .chain m _ => m

/-- The `IMultiAgentNode` record `init` returns.  The `workerNode` closure is
represented by the data it captures: the constructed agent and the normalized
name (the invocation behaviour itself is `agentNode` below). -/
structure IMultiAgentNode where
  agent : AgentOrChain
  name : String
  label : String
  type : String
  workerPrompt : String
  workerInputVariables : List String
  parentSupervisorName : String
deriving DecidableEq, Repr

/-- The fixed boilerplate appended to the worker prompt in both branches of
`createAgent`. -/
def workerBoilerplate : String :=
  "\nWork autonomously according to your specialty, using the tools available to you." ++
  " Do not ask for clarification." ++
  " Your other team members (and other teams) will collaborate with you with their own specialties." ++
  " You are chosen for a reason! You are one of the following team members: \x7bteam_members\x7d."

/-- `createAgent(llm, tools, systemPrompt, maxIterations, flowObj)`:
with a non-empty tool list the model must support `bindTools` (else the
unsupported-model error is thrown) and the tool-loop executor is built;
with no tools the plain conversation chain is built.  The prompt-template and
scratchpad plumbing and `parseFloat` on the iteration cap are LangChain-side
mechanics carrying no decision logic, so the constructors record their
inputs directly. -/
def createAgent (llm : ChatModel) (tools : List Tool) (systemPrompt : String)
    (maxIterations : Option String) : Except String AgentOrChain :=
  if tools.length ≠ 0 then
    match llm.bindTools with
    | none => .error "This agent only compatible with function calling models."
    | some _ => .ok (.executor llm tools (systemPrompt ++ workerBoilerplate) maxIterations)
  else
    .ok (.chain llm (systemPrompt ++ workerBoilerplate))

/-- `Worker_MultiAgents.init`, instrumented: the second component records
whether control reached the `createAgent` call (line 120 of the source).
`parseJSON` abstracts the JavaScript `JSON.parse` builtin; an exception from
it is its `.error` value.  Step order follows the source: worker-name check
(line 95), prompt-values resolution (lines 98-105, skipped for a falsy value,
i.e. an absent field or the empty string), effective-model resolution
(line 107), variable extraction and check (lines 110-114), substitution
(lines 116-118), `createAgent` (line 120), result record (lines 137-145). -/
def Worker_MultiAgents.initT (nd : NodeInputs)
    (parseJSON : String → Except String (List (String × String))) :
    Except String IMultiAgentNode × Bool :=
  match nd.workerName with
  | none => (.error "Worker name is required!", false)
  | some workerLabel =>
    if workerLabel = "" then (.error "Worker name is required!", false)
    else
      let workerName := normalizeWorkerName workerLabel
      let pv : Except String (List (String × String)) :=
        match nd.promptValues with
        | none => .ok []
        | some (.obj o) => .ok o
        | some (.str s) =>
          if s = "" then .ok []
          else
            match parseJSON s with
            | .ok o => .ok o
            | .error e => .error ("Invalid JSON in the Worker\x27s Prompt Input Values: " ++ e)
      match pv with
      | .error e => (.error e, false)
      | .ok workerInputVariablesValues =>
        let llm := match nd.model with
          | some m => m
          | none => nd.supervisor.llm
        let workerInputVariables := getInputVariables nd.workerPrompt
        if ¬ checkInputVariables workerInputVariables workerInputVariablesValues then
          (.error "Worker input variables values are not provided!", false)
        else
          let workerPrompt := substitutePrompt nd.workerPrompt workerInputVariables
            workerInputVariablesValues
          match createAgent llm nd.tools workerPrompt nd.maxIterations with
          | .error e => (.error e, true)
          | .ok agent =>
            (.ok { agent := agent
                   name := workerName
                   label := workerLabel
                   type := "worker"
                   workerPrompt := workerPrompt
                   workerInputVariables := workerInputVariables
                   parentSupervisorName := nd.supervisor.name.getD "supervisor" }, true)

/-- `Worker_MultiAgents.init` proper: the instrumented run without the trace. -/
def Worker_MultiAgents.init (nd : NodeInputs)
    (parseJSON : String → Except String (List (String × String))) :
    Except String IMultiAgentNode :=
  (Worker_MultiAgents.initT nd parseJSON).1

/-- Used-tool metadata on a successful agent result (contents opaque to the
worker code, which only forwards it). -/
structure UsedToolsMeta where
  items : List String
deriving DecidableEq, Repr

/-- Source-document metadata on a successful agent result. -/
structure SourceDocumentsMeta where
  items : List String
deriving DecidableEq, Repr

/-- A successful `agent.invoke` result as `agentNode` observes it: either a
raw string (the tool-less chain) or an object with an `output` text and
optional (JavaScript-truthy) `usedTools` / `sourceDocuments` fields. -/
inductive InvokeResult where
  | str (s : String)
  | objR (output : String) (usedTools : Option UsedToolsMeta)
      (sourceDocuments : Option SourceDocumentsMeta)
deriving DecidableEq, Repr

/-- The outcome of the `await agent.invoke(...)` call: a result, or a thrown
error (timeout, model error, tool error, downstream cancellation, ...)
carrying its original message. -/
inductive InvokeOutcome where
  | ok (r : InvokeResult)
  | err (msg : String)
deriving DecidableEq, Repr

/-- The `additional_kwargs` object attached to the produced message. -/
structure AdditionalKwargs where
  usedTools : Option UsedToolsMeta
  sourceDocuments : Option SourceDocumentsMeta
deriving DecidableEq, Repr

/-- One `HumanMessage` as `agentNode` builds it. -/
structure ChatMessage where
  content : String
  name : String
  additional_kwargs : Option AdditionalKwargs
deriving DecidableEq, Repr

/-- The state delta `agentNode` returns on success. -/
structure StateDelta where
  messages : List ChatMessage
deriving DecidableEq, Repr

/-- The content picked for the message: the result itself when it is a
string, its `output` field otherwise. -/
def resultContent : InvokeResult → String
  | .str s => s
  | .objR o _ _ => o

/-- The `usedTools` metadata carried by a result (`none` for a raw string,
whose `usedTools` property reads as `undefined`). -/
def resultUsedTools : InvokeResult → Option UsedToolsMeta
  | .str _ => none
  | .objR _ u _ => u

/-- The `sourceDocuments` metadata carried by a result. -/
def resultSourceDocuments : InvokeResult → Option SourceDocumentsMeta
  | .str _ => none
  | .objR _ _ d => d

/-- `agentNode`, instrumented: `aborted` is
`abortControllerSignal.signal.aborted` at entry, `outcome` the behaviour of
the enclosed `await agent.invoke(...)` call, `name` the worker's normalized
name.  The second component records whether the invoke call was made.  The
whole body runs in a `try` whose `catch` rethrows every error as
`new Error('Aborted!')`. -/
def agentNodeT (aborted : Bool) (outcome : InvokeOutcome) (name : String) :
    Except String StateDelta × Bool :=
  if aborted then
    (.error "Aborted!", false)
  else
    match outcome with
    | .err _ => (.error "Aborted!", true)
    | .ok result =>
      let ut := resultUsedTools result
      let sd := resultSourceDocuments result
      let additional_kwargs : Option AdditionalKwargs :=
        if ut.isSome || sd.isSome then some { usedTools := ut, sourceDocuments := sd }
        else none
      (.ok { messages := [{ content := resultContent result
                            name := name
                            additional_kwargs := additional_kwargs }] }, true)

/-- `agentNode` proper: the instrumented run without the trace. -/
def agentNode (aborted : Bool) (outcome : InvokeOutcome) (name : String) :
    Except String StateDelta :=
  (agentNodeT aborted outcome name).1

/-- A prompt template presented as alternating literal text and placeholders;
`renderL` below flattens it back to the raw character list.  This is the
well-formedness certificate used to reason about templates whose braces all
belong to placeholders. -/
inductive PromptSeg where
  | lit (s : String)
  | ph (name : String)
deriving DecidableEq, Repr

/-- Flatten a segment list to the template text: a placeholder segment
contributes `{name}`. -/
def renderL : List PromptSeg → List Char
  | [] => []
  | .lit s :: rest => s.data ++ renderL rest
  | .ph n :: rest => '{' :: (n.data ++ ('}' :: renderL rest))

/-- `renderL` as a `String`. -/
def renderSegs (segs : List PromptSeg) : String :=
  String.mk (renderL segs)

/-- A character list free of both brace characters. -/
def braceFreeL (l : List Char) : Bool :=
  l.all (fun c => ¬ (c = '{' ∨ c = '}'))

/-- Well-formed segment list: all literal text and all placeholder names are
brace-free. -/
def wfSegs : List PromptSeg → Bool
  | [] => true
  | .lit s :: rest => braceFreeL s.data && wfSegs rest
  | .ph n :: rest => braceFreeL n.data && wfSegs rest

/-- The placeholder names of a segment list, in order, with repetitions. -/
def segNames : List PromptSeg → List String
  | [] => []
  | .lit _ :: rest => segNames rest
  | .ph n :: rest => n :: segNames rest

/-- Replace every placeholder named `n` with the literal value `v`. -/
def substSegs (n v : String) : List PromptSeg → List PromptSeg
  | [] => []
  | .lit s :: rest => .lit s :: substSegs n v rest
  | .ph m :: rest => (if m = n then .lit v else .ph m) :: substSegs n v rest

/-- A value string allowed in the no-leftover-placeholder theorem: free of
braces (which could assemble into new placeholders) and of the dollar
character (which `String.prototype.replaceAll` would interpret as a
substitution directive). -/
def plainValue (s : String) : Bool :=
  s.data.all (fun c => ¬ (c = '{' ∨ c = '}' ∨ c = '$'))

/-- A JSON parse stub that rejects every string, standing in for
`JSON.parse` on malformed input. -/
def parseAlwaysFails : String → Except String (List (String × String)) :=
  fun _ => .error "SyntaxError: Unexpected end of JSON input"

/-- A tool-incapable chat model (no `bindTools`). -/
def plainModel : ChatModel := { modelId := 0, bindTools := none }

/-- A tool-capable chat model. -/
def toolModel : ChatModel := { modelId := 1, bindTools := some 0 }

/-- A concrete supervisor used by the witness runs. -/
def supA : Supervisor := { name := some "chief", llm := toolModel }

/-- A concrete supervisor without a name. -/
def supNoName : Supervisor := { name := none, llm := plainModel }

/-- The concrete node configuration of the C1 counterexample: template
`{a}` with the provided value of `a` itself being the text `{a}`. -/
def cexInputsC1 : NodeInputs :=
  { tools := []
    workerPrompt := "\x7ba\x7d"
    workerName := some "w"
    supervisor := supA
    maxIterations := none
    model := some plainModel
    promptValues := some (.obj [("a", "\x7ba\x7d")]) }

/-- The concrete node configuration of the C9 counterexample: the
prompt-input-values field holds the empty string, which is falsy and
therefore never parsed. -/
def cexInputsC9 : NodeInputs :=
  { tools := []
    workerPrompt := "hello"
    workerName := some "w"
    supervisor := supA
    maxIterations := none
    model := some plainModel
    promptValues := some (.str "") }

/-- A concrete well-configured node used by witness runs: the spec's
end-to-end example template with both values provided. -/
def okInputs : NodeInputs :=
  { tools := []
    workerPrompt := "You are \x7brole\x7d, answer about \x7btopic\x7d."
    workerName := some "Research Assistant"
    supervisor := supA
    maxIterations := none
    model := some plainModel
    promptValues := some (.obj [("role", "analyst"), ("topic", "markets")]) }

/-- The segment certificate for `okInputs`'s template. -/
def okSegs : List PromptSeg :=
  [.lit "You are ", .ph "role", .lit ", answer about ", .ph "topic", .lit "."]

/-- The worker definition produced by the successful `okInputs` run
(extracted from the computed result; see `worker_init_ok_run`). -/
def okOut : IMultiAgentNode :=
  (Worker_MultiAgents.init okInputs parseAlwaysFails).toOption.getD
    { agent := .chain plainModel ""
      name := ""
      label := ""
      type := ""
      workerPrompt := ""
      workerInputVariables := []
      parentSupervisorName := "" }

/-! ## Helper lemmas -/

theorem toNat_ofNat_of_valid (n : Nat) (h : n < 0xd800) :
    (Char.ofNat n).toNat = n := by
  unfold Char.ofNat
  rw [dif_pos (Or.inl h)]
  rfl

theorem toLowerJS_idem (c : Char) : toLowerJS (toLowerJS c) = toLowerJS c := by
  unfold toLowerJS
  by_cases h : 65 ≤ c.toNat ∧ c.toNat ≤ 90
  · rw [if_pos h]
    have ht : (Char.ofNat (c.toNat + 32)).toNat = c.toNat + 32 :=
      toNat_ofNat_of_valid _ (by omega)
    rw [if_neg (by omega)]
  · rw [if_neg h, if_neg h]

theorem mapIdOn {α : Type} (f : α → α) (l : List α) (h : ∀ a ∈ l, f a = a) :
    l.map f = l := by
  induction l with
  | nil => rfl
  | cons x xs ih =>
    simp only [List.map_cons, List.cons.injEq]
    exact ⟨h x (List.mem_cons_self x xs), ih (fun a ha => h a (List.mem_cons_of_mem x ha))⟩

theorem dropWhileAllFalse {α : Type} (p : α → Bool) (l : List α)
    (h : ∀ a ∈ l, p a = false) : l.dropWhile p = l := by
  cases l with
  | nil => rfl
  | cons x xs =>
    rw [List.dropWhile_cons, if_neg]
    simp [h x (List.mem_cons_self x xs)]

theorem mem_of_mem_dropWhile {α : Type} (p : α → Bool) (l : List α) (a : α)
    (h : a ∈ l.dropWhile p) : a ∈ l := by
  induction l with
  | nil => simp at h
  | cons x xs ih =>
    rw [List.dropWhile_cons] at h
    by_cases hp : p x = true
    · rw [if_pos hp] at h
      exact List.mem_cons_of_mem x (ih h)
    · rw [if_neg hp] at h
      exact h

theorem mem_of_mem_trimJS (s : String) (c : Char) (h : c ∈ (trimJS s).data) :
    c ∈ s.data := by
  unfold trimJS at h
  have h1 := List.mem_reverse.mp h
  have h2 := mem_of_mem_dropWhile _ _ _ h1
  have h3 := List.mem_reverse.mp h2
  exact mem_of_mem_dropWhile _ _ _ h3

theorem replaceWSUnderscore_char_noWS (s : String) (c : Char)
    (h : c ∈ (replaceWSUnderscore s).data) : jsIsWS c = false := by
  unfold replaceWSUnderscore at h
  obtain ⟨a, _, rfl⟩ := List.mem_map.mp h
  by_cases ha : jsIsWS a = true
  · rw [if_pos ha]
    decide
  · rw [if_neg ha]
    simpa using ha

theorem replaceWSUnderscore_lowerJS_char_fixed (s : String) (c : Char)
    (h : c ∈ (replaceWSUnderscore (lowerJS s)).data) : toLowerJS c = c := by
  unfold replaceWSUnderscore at h
  obtain ⟨a, ha, rfl⟩ := List.mem_map.mp h
  by_cases hw : jsIsWS a = true
  · rw [if_pos hw]
    decide
  · rw [if_neg hw]
    unfold lowerJS at ha
    obtain ⟨b, _, rfl⟩ := List.mem_map.mp ha
    exact toLowerJS_idem b

theorem lowerJS_fixed_of_chars (t : String) (h : ∀ c ∈ t.data, toLowerJS c = c) :
    lowerJS t = t := by
  unfold lowerJS
  rw [mapIdOn _ _ h]

theorem replaceWSUnderscore_fixed_of_chars (t : String)
    (h : ∀ c ∈ t.data, jsIsWS c = false) : replaceWSUnderscore t = t := by
  unfold replaceWSUnderscore
  rw [mapIdOn]
  intro a ha
  rw [if_neg]
  simp [h a ha]

theorem trimJS_fixed_of_chars (t : String)
    (h : ∀ c ∈ t.data, jsIsWS c = false) : trimJS t = t := by
  unfold trimJS
  rw [dropWhileAllFalse _ _ h]
  rw [dropWhileAllFalse]
  · rw [List.reverse_reverse]
  · intro a ha
    exact h a (List.mem_reverse.mp ha)

theorem normalizeWorkerName_chars_noWS (s : String) (c : Char)
    (h : c ∈ (normalizeWorkerName s).data) : jsIsWS c = false := by
  unfold normalizeWorkerName at h
  exact replaceWSUnderscore_char_noWS _ _ (mem_of_mem_trimJS _ _ h)

theorem normalizeWorkerName_chars_lower (s : String) (c : Char)
    (h : c ∈ (normalizeWorkerName s).data) : toLowerJS c = c := by
  unfold normalizeWorkerName at h
  exact replaceWSUnderscore_lowerJS_char_fixed _ _ (mem_of_mem_trimJS _ _ h)

/-- C6.  Worker name normalization (lowercase, whitespace→underscore, trim)
is idempotent: normalizing an already-normalized name returns it unchanged,
and normalizing "Research Assistant" yields "research_assistant". -/
theorem worker_name_normalization_idem :
    (∀ s, normalizeWorkerName (normalizeWorkerName s) = normalizeWorkerName s) ∧
    normalizeWorkerName "Research Assistant" = "research_assistant" := by
  constructor
  · intro s
    have h1 : lowerJS (normalizeWorkerName s) = normalizeWorkerName s :=
      lowerJS_fixed_of_chars _ (normalizeWorkerName_chars_lower s)
    have h2 : replaceWSUnderscore (normalizeWorkerName s) = normalizeWorkerName s :=
      replaceWSUnderscore_fixed_of_chars _ (normalizeWorkerName_chars_noWS s)
    have h3 : trimJS (normalizeWorkerName s) = normalizeWorkerName s :=
      trimJS_fixed_of_chars _ (normalizeWorkerName_chars_noWS s)
    calc normalizeWorkerName (normalizeWorkerName s)
        = trimJS (replaceWSUnderscore (lowerJS (normalizeWorkerName s))) := rfl
      _ = normalizeWorkerName s := by rw [h1, h2, h3]
  · decide

/-- C3.  If the cancellation signal is already set when `agentNode` is
entered, it fails with the Aborted error before `agent.invoke` is made
(the trace component is `false`: the invoke call never happens), and no
message delta is produced. -/
theorem agent_node_preset_abort :
    ∀ (outcome : InvokeOutcome) (name : String),
      agentNodeT true outcome name = (Except.error "Aborted!", false) := by
  intro outcome name
  rfl

/-- C2.  Every error thrown while `agentNode` runs — a pre-set cancellation
or any error from the invoke call (timeout, model error, tool error) — is
propagated uniformly as the Aborted error: any error result of `agentNode`
carries exactly the message "Aborted!", never the original one. -/
theorem agent_node_uniform_abort :
    (∀ (outcome : InvokeOutcome) (name : String),
      (agentNodeT true outcome name).1 = Except.error "Aborted!") ∧
    (∀ (name msg : String),
      agentNode false (.err msg) name = Except.error "Aborted!") ∧
    (∀ (aborted : Bool) (outcome : InvokeOutcome) (name e : String),
      agentNode aborted outcome name = Except.error e → e = "Aborted!") := by
  refine ⟨fun _ _ => rfl, fun _ _ => rfl, ?_⟩
  intro aborted outcome name e h
  cases aborted with
  | true =>
    simp only [agentNode, agentNodeT, if_pos] at h
    exact (Except.error.inj h).symm
  | false =>
    cases outcome with
    | err m =>
      simp only [agentNode, agentNodeT, Bool.false_eq_true, if_false] at h
      exact (Except.error.inj h).symm
    | ok r =>
      simp only [agentNode, agentNodeT, Bool.false_eq_true, if_false] at h
      cases h

/-- Witness for C2 at a concrete input: a model error "boom" with the signal
clear surfaces as "Aborted!". -/
theorem agent_node_uniform_abort_witness :
    agentNode false (.err "boom") "research_assistant" = Except.error "Aborted!" ∧
    "Aborted!" = "Aborted!" :=
  ⟨by rfl,
   agent_node_uniform_abort.2.2 false (.err "boom") "research_assistant" "Aborted!" (by rfl)⟩

/-- C4.  On a successful invocation `agentNode` returns a delta of exactly
one message: content is the result itself for a string result and its
`output` field otherwise; the message is tagged with the worker name; the
`additional_kwargs` object carries `usedTools` / `sourceDocuments` exactly
as present on the result and is omitted entirely when neither is present
(a string result carries neither). -/
theorem agent_node_success_delta :
    ∀ (name s out : String) (ut : Option UsedToolsMeta) (sd : Option SourceDocumentsMeta),
      agentNode false (.ok (.str s)) name =
        Except.ok { messages := [{ content := s, name := name, additional_kwargs := none }] } ∧
      agentNode false (.ok (.objR out ut sd)) name =
        Except.ok { messages := [{ content := out, name := name,
                                   additional_kwargs :=
                                     if ut = none ∧ sd = none then none
                                     else some { usedTools := ut, sourceDocuments := sd } }] } := by
  intro name s out ut sd
  constructor
  · rfl
  · cases ut <;> cases sd <;> rfl

/-- C5.  `createAgent` with a non-empty tool list: a model without
`bindTools` is rejected with the unsupported-model error; a model with
`bindTools` yields the tool-loop executor. -/
theorem create_agent_tool_binding :
    ∀ (llm : ChatModel) (tools : List Tool) (sp : String) (mi : Option String),
      tools ≠ [] →
      (llm.bindTools = none →
        createAgent llm tools sp mi =
          Except.error "This agent only compatible with function calling models.") ∧
      (∀ bt, llm.bindTools = some bt →
        createAgent llm tools sp mi =
          Except.ok (.executor llm tools (sp ++ workerBoilerplate) mi)) := by
  intro llm tools sp mi htools
  have hlen : tools.length ≠ 0 := by
    simpa [List.length_eq_zero] using htools
  constructor
  · intro hb
    simp [createAgent, hlen, hb]
  · intro bt hb
    simp [createAgent, hlen, hb]

/-- Witness for C5 at concrete inputs: one tool, a model without binding
fails, a model with binding yields the executor. -/
theorem create_agent_tool_binding_witness :
    createAgent plainModel [{ name := "search" }] "p" none =
      Except.error "This agent only compatible with function calling models." ∧
    createAgent toolModel [{ name := "search" }] "p" none =
      Except.ok (.executor toolModel [{ name := "search" }] ("p" ++ workerBoilerplate) none) :=
  ⟨(create_agent_tool_binding plainModel [{ name := "search" }] "p" none (by decide)).1 rfl,
   (create_agent_tool_binding toolModel [{ name := "search" }] "p" none (by decide)).2 0 rfl⟩

theorem createAgent_ok_llm (llm : ChatModel) (tools : List Tool) (sp : String)
    (mi : Option String) (a : AgentOrChain)
    (h : createAgent llm tools sp mi = .ok a) : a.llm = llm := by
  unfold createAgent at h
  split at h
  · split at h
    · cases h
    · injection h with h2
      subst h2
      rfl
  · injection h with h2
    subst h2
    rfl

theorem initT_ok_shape (nd : NodeInputs)
    (parser : String → Except String (List (String × String)))
    (out : IMultiAgentNode) (b : Bool)
    (h : Worker_MultiAgents.initT nd parser = (.ok out, b)) :
    b = true ∧
    ∃ lbl vals,
      nd.workerName = some lbl ∧ ¬ lbl = "" ∧
      checkInputVariables (getInputVariables nd.workerPrompt) vals = true ∧
      out.name = normalizeWorkerName lbl ∧
      out.label = lbl ∧
      out.type = "worker" ∧
      out.workerInputVariables = getInputVariables nd.workerPrompt ∧
      out.workerPrompt =
        substitutePrompt nd.workerPrompt (getInputVariables nd.workerPrompt) vals ∧
      out.parentSupervisorName = nd.supervisor.name.getD "supervisor" ∧
      out.agent.llm = (match nd.model with | some m => m | none => nd.supervisor.llm) := by
  simp only [Worker_MultiAgents.initT] at h
  split at h
  · simp at h
  · rename_i lbl hlbl
    split at h
    · simp at h
    · rename_i hne
      split at h
      · simp at h
      · rename_i vals hvals
        split at h
        · simp at h
        · rename_i hcheck
          split at h
          · simp at h
          · rename_i agent hagent
            simp only [Prod.mk.injEq] at h
            obtain ⟨h1, h2⟩ := h
            injection h1 with h1
            subst h1
            refine ⟨h2.symm, lbl, vals, hlbl, hne, ?_, rfl, rfl, rfl, rfl, rfl, rfl, ?_⟩
            · simpa using hcheck
            · exact createAgent_ok_llm _ _ _ _ _ hagent

/-- C7.  An absent or empty worker name fails `init` with the Configuration
error "Worker name is required!", and `createAgent` is never reached (the
trace component is `false`). -/
theorem worker_name_required :
    ∀ (nd : NodeInputs) (parser : String → Except String (List (String × String))),
      (nd.workerName = none ∨ nd.workerName = some "") →
      Worker_MultiAgents.initT nd parser = (.error "Worker name is required!", false) := by
  intro nd parser h
  rcases h with h | h <;> simp [Worker_MultiAgents.initT, h]

/-- Witness for C7 at a concrete input: an absent worker name. -/
theorem worker_name_required_witness :
    Worker_MultiAgents.initT
      { tools := [], workerPrompt := "p", workerName := none, supervisor := supA,
        maxIterations := none, model := none, promptValues := none } parseAlwaysFails =
      (Except.error "Worker name is required!", false) :=
  worker_name_required _ parseAlwaysFails (Or.inl rfl)

/-- C8.  The effective model handed to agent construction is the node's own
model when one is set and the supervisor's model otherwise; when the node's
model is set the run does not depend on the supervisor's model at all. -/
theorem effective_model_resolution :
    (∀ (nd : NodeInputs) parser (out : IMultiAgentNode) (b : Bool) (m : ChatModel),
      nd.model = some m →
      Worker_MultiAgents.initT nd parser = (.ok out, b) → out.agent.llm = m) ∧
    (∀ (nd : NodeInputs) parser (out : IMultiAgentNode) (b : Bool),
      nd.model = none →
      Worker_MultiAgents.initT nd parser = (.ok out, b) →
      out.agent.llm = nd.supervisor.llm) ∧
    (∀ (nd : NodeInputs) (m L₁ L₂ : ChatModel) parser,
      Worker_MultiAgents.initT
        { nd with model := some m, supervisor := { nd.supervisor with llm := L₁ } } parser =
      Worker_MultiAgents.initT
        { nd with model := some m, supervisor := { nd.supervisor with llm := L₂ } } parser) := by
  refine ⟨?_, ?_, fun _ _ _ _ _ => rfl⟩
  · intro nd parser out b m hm h
    obtain ⟨-, lbl, vals, -, -, -, -, -, -, -, -, -, hllm⟩ := initT_ok_shape nd parser out b h
    rw [hm] at hllm
    exact hllm
  · intro nd parser out b hm h
    obtain ⟨-, lbl, vals, -, -, -, -, -, -, -, -, -, hllm⟩ := initT_ok_shape nd parser out b h
    rw [hm] at hllm
    exact hllm

/-- Witness for C8 at a concrete input: `okInputs` sets its own model
`plainModel` while its supervisor holds `toolModel`; the built agent records
`plainModel`. -/
theorem effective_model_resolution_witness : okOut.agent.llm = plainModel :=
  effective_model_resolution.1 okInputs parseAlwaysFails okOut true plainModel rfl (by rfl)

/-- C10.  The returned worker definition's parent supervisor name is the
supervisor's name when present and the literal "supervisor" when the
supervisor has no name (`supervisor.name ?? 'supervisor'`). -/
theorem parent_supervisor_name_default :
    ∀ (nd : NodeInputs) parser (out : IMultiAgentNode) (b : Bool),
      Worker_MultiAgents.initT nd parser = (.ok out, b) →
      (∀ n, nd.supervisor.name = some n → out.parentSupervisorName = n) ∧
      (nd.supervisor.name = none → out.parentSupervisorName = "supervisor") := by
  intro nd parser out b h
  obtain ⟨-, lbl, vals, -, -, -, -, -, -, -, -, hparent, -⟩ := initT_ok_shape nd parser out b h
  constructor
  · intro n hn
    rw [hparent, hn]
    rfl
  · intro hn
    rw [hparent, hn]
    rfl

/-- Witness for C10 at a concrete input: `okInputs`'s supervisor is named
"chief" and the worker definition records it. -/
theorem parent_supervisor_name_default_witness : okOut.parentSupervisorName = "chief" :=
  (parent_supervisor_name_default okInputs parseAlwaysFails okOut true (by rfl)).1 "chief" rfl

/-- C9 counterexample: the claim "for every string value that fails to parse
as JSON, construction fails with a Configuration error" is false at the
empty string: `JSON.parse("")` throws (here: `parseAlwaysFails ""` errors),
yet an empty prompt-input-values string is falsy, is never parsed, and this
construction succeeds. -/
theorem prompt_values_json_cex :
    parseAlwaysFails "" = Except.error "SyntaxError: Unexpected end of JSON input" ∧
    (Worker_MultiAgents.initT cexInputsC9 parseAlwaysFails).1.isOk = true := by
  exact ⟨rfl, rfl⟩

/-- C9, amended.  With an object-valued prompt-input-values field the JSON
parser is never consulted (the run is identical for any two parsers) and the
malformed-JSON error cannot arise (every error of such a run is one of the
three other messages); a NON-EMPTY string value that fails to parse makes
construction fail with the Configuration error embedding the parse
exception; an empty string value is falsy and is never parsed. -/
theorem prompt_values_json_handling :
    (∀ (tools : List Tool) (T : String) (wn : Option String) (sup : Supervisor)
       (mi : Option String) (mdl : Option ChatModel) (V : List (String × String)) p₁ p₂,
      Worker_MultiAgents.initT ⟨tools, T, wn, sup, mi, mdl, some (.obj V)⟩ p₁ =
        Worker_MultiAgents.initT ⟨tools, T, wn, sup, mi, mdl, some (.obj V)⟩ p₂) ∧
    (∀ (tools : List Tool) (T : String) (wn : Option String) (sup : Supervisor)
       (mi : Option String) (mdl : Option ChatModel) (V : List (String × String)) p
       (e : String) (b : Bool),
      Worker_MultiAgents.initT ⟨tools, T, wn, sup, mi, mdl, some (.obj V)⟩ p = (.error e, b) →
      e = "Worker name is required!" ∨
      e = "Worker input variables values are not provided!" ∨
      e = "This agent only compatible with function calling models.") ∧
    (∀ (tools : List Tool) (T wn : String) (sup : Supervisor)
       (mi : Option String) (mdl : Option ChatModel) (s e : String) p,
      ¬ wn = "" → ¬ s = "" → p s = .error e →
      Worker_MultiAgents.initT ⟨tools, T, some wn, sup, mi, mdl, some (.str s)⟩ p =
        (.error ("Invalid JSON in the Worker\x27s Prompt Input Values: " ++ e), false)) := by
  refine ⟨fun _ _ _ _ _ _ _ _ _ => rfl, ?_, ?_⟩
  · intro tools T wn sup mi mdl V p e b h
    simp only [Worker_MultiAgents.initT] at h
    split at h
    · simp only [Prod.mk.injEq] at h
      exact Or.inl (Except.error.inj h.1).symm
    · split at h
      · simp only [Prod.mk.injEq] at h
        exact Or.inl (Except.error.inj h.1).symm
      · split at h
        · simp only [Prod.mk.injEq] at h
          exact Or.inr (Or.inl (Except.error.inj h.1).symm)
        · split at h
          · rename_i e2 hagent
            simp only [Prod.mk.injEq] at h
            obtain ⟨h1, -⟩ := h
            have he : e = e2 := (Except.error.inj h1).symm
            unfold createAgent at hagent
            split at hagent
            · split at hagent
              · refine Or.inr (Or.inr ?_)
                rw [he]
                exact (Except.error.inj hagent).symm
              · cases hagent
            · cases hagent
          · simp at h
  · intro tools T wn sup mi mdl s e p hwn hs hp
    simp only [Worker_MultiAgents.initT, if_neg hwn, if_neg hs, hp]

/-- Witness for C9 at a concrete input: a non-empty malformed string fails
with the embedded parse exception. -/
theorem prompt_values_json_handling_witness :
    Worker_MultiAgents.initT
      { tools := [], workerPrompt := "hello", workerName := some "w", supervisor := supA,
        maxIterations := none, model := none, promptValues := some (.str "notjson") }
      parseAlwaysFails =
    (Except.error ("Invalid JSON in the Worker\x27s Prompt Input Values: " ++
      "SyntaxError: Unexpected end of JSON input"), false) :=
  prompt_values_json_handling.2.2 [] "hello" "w" supA none none "notjson"
    "SyntaxError: Unexpected end of JSON input" parseAlwaysFails
    (by decide) (by decide) rfl

theorem braceFreeL_iff (l : List Char) :
    braceFreeL l = true ↔ ∀ c ∈ l, c ≠ '{' ∧ c ≠ '}' := by
  simp [braceFreeL, not_or]

theorem extractVars_skip_lit (l : List Char) (hl : ∀ c ∈ l, c ≠ '{' ∧ c ≠ '}') :
    ∀ rest : List Char, extractVarsAux (l ++ rest) none = extractVarsAux rest none := by
  induction l with
  | nil => intro rest; rfl
  | cons c cs ih =>
    intro rest
    have hc := hl c (List.mem_cons_self c cs)
    simp only [List.cons_append, extractVarsAux, if_neg hc.1, if_neg hc.2]
    exact ih (fun a ha => hl a (List.mem_cons_of_mem c ha)) rest

theorem extractVars_in_ph (n : List Char) (hn : ∀ c ∈ n, c ≠ '{' ∧ c ≠ '}') :
    ∀ accRev rest : List Char,
      extractVarsAux (n ++ '}' :: rest) (some accRev) =
        String.mk (accRev.reverse ++ n) :: extractVarsAux rest none := by
  induction n with
  | nil =>
    intro accRev rest
    rw [List.append_nil]
    rfl
  | cons c cs ih =>
    intro accRev rest
    have hc := hn c (List.mem_cons_self c cs)
    simp only [List.cons_append, extractVarsAux, if_neg hc.1, if_neg hc.2, List.append_eq]
    rw [ih (fun a ha => hn a (List.mem_cons_of_mem c ha)) (c :: accRev) rest]
    congr 2
    simp

theorem extractVars_render : ∀ segs : List PromptSeg, wfSegs segs = true →
    extractVarsAux (renderL segs) none = segNames segs := by
  intro segs
  induction segs with
  | nil => intro _; rfl
  | cons seg rest ih =>
    intro hw
    cases seg with
    | lit s =>
      simp only [wfSegs, Bool.and_eq_true] at hw
      simp only [renderL, segNames]
      rw [extractVars_skip_lit s.data ((braceFreeL_iff _).mp hw.1), ih hw.2]
    | ph n =>
      simp only [wfSegs, Bool.and_eq_true] at hw
      simp only [renderL, segNames, extractVarsAux, if_pos rfl]
      rw [extractVars_in_ph n.data ((braceFreeL_iff _).mp hw.1) [] (renderL rest), ih hw.2]
      rfl

theorem mem_of_mem_dedupAux (x : String) : ∀ l seen : List String,
    x ∈ dedupAux l seen → x ∈ l := by
  intro l
  induction l with
  | nil => intro seen h; simp [dedupAux] at h
  | cons y ys ih =>
    intro seen h
    rw [dedupAux] at h
    by_cases hy : y ∈ seen
    · rw [if_pos hy] at h
      exact List.mem_cons_of_mem y (ih seen h)
    · rw [if_neg hy] at h
      rcases List.mem_cons.mp h with h | h
      · exact h ▸ List.mem_cons_self x ys
      · exact List.mem_cons_of_mem y (ih (y :: seen) h)

theorem mem_dedupAux_of_mem (x : String) : ∀ l seen : List String,
    x ∈ l → x ∉ seen → x ∈ dedupAux l seen := by
  intro l
  induction l with
  | nil => intro seen h _; simp at h
  | cons y ys ih =>
    intro seen h hs
    rw [dedupAux]
    by_cases hy : y ∈ seen
    · rw [if_pos hy]
      rcases List.mem_cons.mp h with h | h
      · exact absurd (h ▸ hy) hs
      · exact ih seen h hs
    · rw [if_neg hy]
      by_cases hxy : x = y
      · exact hxy ▸ List.mem_cons_self y (dedupAux ys (y :: seen))
      · rcases List.mem_cons.mp h with h | h
        · exact absurd h hxy
        · refine List.mem_cons_of_mem y (ih (y :: seen) h ?_)
          intro hmem
          rcases List.mem_cons.mp hmem with h2 | h2
          · exact hxy h2
          · exact hs h2

theorem segNames_braceFree : ∀ segs : List PromptSeg, wfSegs segs = true →
    ∀ n ∈ segNames segs, braceFreeL n.data = true := by
  intro segs
  induction segs with
  | nil => intro _ n hn; simp [segNames] at hn
  | cons seg rest ih =>
    intro hw n hn
    cases seg with
    | lit s =>
      simp only [wfSegs, Bool.and_eq_true] at hw
      exact ih hw.2 n (by simpa [segNames] using hn)
    | ph m =>
      simp only [wfSegs, Bool.and_eq_true] at hw
      rcases List.mem_cons.mp hn with h | h
      · exact h ▸ hw.1
      · exact ih hw.2 n h

theorem not_isPrefixOf_of_head_ne (c : Char) (cs p' : List Char) (hc : c ≠ '{') :
    ('{' :: p').isPrefixOf (c :: cs) = false := by
  have hbe : (('{' : Char) == c) = false := beq_eq_false_iff_ne.mpr (Ne.symm hc)
  simp [List.isPrefixOf, hbe]

theorem replaceAllL_append_left (l : List Char) (hl : ∀ c ∈ l, c ≠ '{')
    (s p' rep : List Char) :
    replaceAllL (l ++ s) ('{' :: p') rep = l ++ replaceAllL s ('{' :: p') rep := by
  induction l with
  | nil => rfl
  | cons c cs ih =>
    have hc := hl c (List.mem_cons_self c cs)
    rw [List.cons_append, replaceAllL, if_neg]
    · rw [ih (fun a ha => hl a (List.mem_cons_of_mem c ha))]
      rfl
    · rintro ⟨-, hp⟩
      rw [not_isPrefixOf_of_head_ne c (cs ++ s) p' hc] at hp
      cases hp

theorem replaceAllL_pat_head (pat s rep : List Char) (h : pat ≠ []) :
    replaceAllL (pat ++ s) pat rep = rep ++ replaceAllL s pat rep := by
  cases pat with
  | nil => exact absurd rfl h
  | cons p ps =>
    rw [List.cons_append, replaceAllL, if_pos]
    · congr 1
      rw [← List.cons_append, List.drop_left]
    · refine ⟨h, ?_⟩
      rw [← List.cons_append]
      exact List.isPrefixOf_iff_prefix.mpr (List.prefix_append (p :: ps) s)

theorem prefix_name_eq : ∀ n m s : List Char,
    (∀ c ∈ n, c ≠ '{' ∧ c ≠ '}') → (∀ c ∈ m, c ≠ '{' ∧ c ≠ '}') →
    (n ++ ['}']).isPrefixOf (m ++ '}' :: s) = true → n = m := by
  intro n
  induction n with
  | nil =>
    intro m s _ hm h
    cases m with
    | nil => rfl
    | cons d ds =>
      simp only [List.nil_append, List.cons_append, List.isPrefixOf, Bool.and_eq_true,
        beq_iff_eq] at h
      exact absurd h.1.symm (hm d (List.mem_cons_self d ds)).2
  | cons c cs ih =>
    intro m s hn hm h
    cases m with
    | nil =>
      simp only [List.cons_append, List.nil_append, List.isPrefixOf, Bool.and_eq_true,
        beq_iff_eq] at h
      exact absurd h.1 (hn c (List.mem_cons_self c cs)).2
    | cons d ds =>
      simp only [List.cons_append, List.isPrefixOf, Bool.and_eq_true, beq_iff_eq] at h
      obtain ⟨h1, h2⟩ := h
      rw [h1]
      congr 1
      exact ih ds s (fun a ha => hn a (List.mem_cons_of_mem c ha))
        (fun a ha => hm a (List.mem_cons_of_mem d ha)) h2

theorem replaceAllL_skip_other_ph (m n s rep : List Char)
    (hm : ∀ c ∈ m, c ≠ '{' ∧ c ≠ '}') (hn : ∀ c ∈ n, c ≠ '{' ∧ c ≠ '}')
    (hne : m ≠ n) :
    replaceAllL ('{' :: (m ++ '}' :: s)) ('{' :: (n ++ ['}'])) rep =
      '{' :: (m ++ '}' :: replaceAllL s ('{' :: (n ++ ['}'])) rep) := by
  rw [replaceAllL, if_neg]
  · congr 1
    rw [replaceAllL_append_left m (fun c hc => (hm c hc).1) ('}' :: s) (n ++ ['}']) rep]
    congr 1
    rw [replaceAllL, if_neg]
    rintro ⟨-, hp⟩
    rw [not_isPrefixOf_of_head_ne '}' s (n ++ ['}']) (by decide)] at hp
    cases hp
  · rintro ⟨-, hp⟩
    simp only [List.isPrefixOf, Bool.and_eq_true, beq_iff_eq] at hp
    exact hne (prefix_name_eq n m s hn hm hp.2).symm

theorem replaceAllL_render_subst (n v : String)
    (hn : ∀ c ∈ n.data, c ≠ '{' ∧ c ≠ '}') :
    ∀ segs : List PromptSeg, wfSegs segs = true →
      replaceAllL (renderL segs) ('{' :: (n.data ++ ['}'])) v.data =
        renderL (substSegs n v segs) := by
  intro segs
  induction segs with
  | nil =>
    intro _
    rw [renderL, replaceAllL]
    rfl
  | cons seg rest ih =>
    intro hw
    cases seg with
    | lit s =>
      simp only [wfSegs, Bool.and_eq_true] at hw
      simp only [renderL, substSegs]
      rw [replaceAllL_append_left s.data
        (fun c hc => ((braceFreeL_iff _).mp hw.1 c hc).1) _ _ _]
      rw [ih hw.2]
    | ph m =>
      simp only [wfSegs, Bool.and_eq_true] at hw
      by_cases hmn : m = n
      · subst hmn
        simp only [renderL, substSegs, if_pos rfl]
        have hshape : ('{' :: (m.data ++ '}' :: renderL rest)) =
            ('{' :: (m.data ++ ['}'])) ++ renderL rest := by
          simp
        rw [hshape, replaceAllL_pat_head _ _ _ (by simp), ih hw.2]
      · simp only [renderL, substSegs, if_neg hmn]
        rw [replaceAllL_skip_other_ph m.data n.data _ _
          ((braceFreeL_iff _).mp hw.1) hn (fun h => hmn (congrArg String.mk h)), ih hw.2]

theorem wfSegs_substSegs (n v : String) (hv : ∀ c ∈ v.data, c ≠ '{' ∧ c ≠ '}') :
    ∀ segs, wfSegs segs = true → wfSegs (substSegs n v segs) = true := by
  intro segs
  induction segs with
  | nil => intro _; rfl
  | cons seg rest ih =>
    intro hw
    cases seg with
    | lit s =>
      simp only [wfSegs, Bool.and_eq_true] at hw ⊢
      exact ⟨hw.1, ih hw.2⟩
    | ph m =>
      simp only [wfSegs, Bool.and_eq_true] at hw
      by_cases hmn : m = n
      · simp only [substSegs, if_pos hmn, wfSegs, Bool.and_eq_true]
        exact ⟨(braceFreeL_iff _).mpr hv, ih hw.2⟩
      · simp only [substSegs, if_neg hmn, wfSegs, Bool.and_eq_true]
        exact ⟨hw.1, ih hw.2⟩

theorem segNames_substSegs (n v : String) : ∀ segs (x : String),
    x ∈ segNames (substSegs n v segs) → x ∈ segNames segs ∧ x ≠ n := by
  intro segs
  induction segs with
  | nil => intro x hx; simp [substSegs, segNames] at hx
  | cons seg rest ih =>
    intro x hx
    cases seg with
    | lit s =>
      simp only [substSegs, segNames] at hx ⊢
      exact ih x hx
    | ph m =>
      by_cases hmn : m = n
      · simp only [substSegs, if_pos hmn, segNames] at hx
        obtain ⟨h1, h2⟩ := ih x hx
        exact ⟨List.mem_cons_of_mem m h1, h2⟩
      · simp only [substSegs, if_neg hmn, segNames] at hx
        rcases List.mem_cons.mp hx with h | h
        · exact ⟨h ▸ List.mem_cons_self m (segNames rest), h ▸ hmn⟩
        · obtain ⟨h1, h2⟩ := ih x h
          exact ⟨List.mem_cons_of_mem m h1, h2⟩

theorem renderL_braceFree_of_no_names : ∀ segs, wfSegs segs = true →
    segNames segs = [] → ∀ c ∈ renderL segs, c ≠ '{' ∧ c ≠ '}' := by
  intro segs
  induction segs with
  | nil => intro _ _ c hc; simp [renderL] at hc
  | cons seg rest ih =>
    intro hw hn c hc
    cases seg with
    | lit s =>
      simp only [wfSegs, Bool.and_eq_true] at hw
      simp only [segNames] at hn
      simp only [renderL] at hc
      rcases List.mem_append.mp hc with h | h
      · exact (braceFreeL_iff _).mp hw.1 c h
      · exact ih hw.2 hn c h
    | ph m =>
      simp only [segNames] at hn
      cases hn

theorem lookupJS_plain (V : List (String × String))
    (hv : ∀ pr ∈ V, ∀ c ∈ pr.2.data, c ≠ '{' ∧ c ≠ '}') (k : String) :
    ∀ c ∈ (lookupJS V k).data, c ≠ '{' ∧ c ≠ '}' := by
  intro c hc
  unfold lookupJS at hc
  cases hfind : V.find? (fun p => p.1 = k) with
  | none =>
    rw [hfind] at hc
    exact (braceFreeL_iff _).mp (by decide) c hc
  | some p =>
    rw [hfind] at hc
    exact hv p (List.mem_of_find?_eq_some hfind) c hc

theorem substitutePrompt_braceFree :
    ∀ (vs : List String) (segs : List PromptSeg) (V : List (String × String)),
      wfSegs segs = true →
      (∀ x ∈ vs, ∀ c ∈ x.data, c ≠ '{' ∧ c ≠ '}') →
      (∀ pr ∈ V, ∀ c ∈ pr.2.data, c ≠ '{' ∧ c ≠ '}') →
      (∀ x ∈ segNames segs, x ∈ vs) →
      ∀ c ∈ (substitutePrompt (renderSegs segs) vs V).data, c ≠ '{' ∧ c ≠ '}' := by
  intro vs
  induction vs with
  | nil =>
    intro segs V hw _ _ hsub
    have hnames : segNames segs = [] := by
      cases hn : segNames segs with
      | nil => rfl
      | cons y ys => exact absurd (hsub y (hn ▸ List.mem_cons_self y ys)) (by simp)
    exact renderL_braceFree_of_no_names segs hw hnames
  | cons v vs' ih =>
    intro segs V hw hvs hV hsub
    have hstep : replaceAllStr (renderSegs segs) ("\x7b" ++ v ++ "\x7d") (lookupJS V v) =
        renderSegs (substSegs v (lookupJS V v) segs) := by
      unfold replaceAllStr renderSegs
      congr 1
      exact replaceAllL_render_subst v (lookupJS V v)
        (hvs v (List.mem_cons_self v vs')) segs hw
    have hfold : substitutePrompt (renderSegs segs) (v :: vs') V =
        substitutePrompt (renderSegs (substSegs v (lookupJS V v) segs)) vs' V := by
      unfold substitutePrompt
      rw [List.foldl_cons, hstep]
    rw [hfold]
    refine ih (substSegs v (lookupJS V v) segs) V
      (wfSegs_substSegs v (lookupJS V v) (lookupJS_plain V hV v) segs hw)
      (fun x hx => hvs x (List.mem_cons_of_mem v hx)) hV ?_
    intro x hx
    obtain ⟨h1, h2⟩ := segNames_substSegs v (lookupJS V v) segs x hx
    rcases List.mem_cons.mp (hsub x h1) with h | h
    · exact absurd h h2
    · exact h

theorem containsSubL_false_of_braceFree (s : List Char)
    (hs : ∀ c ∈ s, c ≠ '{' ∧ c ≠ '}') (p' : List Char) :
    containsSubL s ('{' :: p') = false := by
  induction s with
  | nil => rfl
  | cons c cs ih =>
    simp only [containsSubL]
    rw [not_isPrefixOf_of_head_ne c cs p' (hs c (List.mem_cons_self c cs)).1]
    rw [Bool.false_or]
    exact ih (fun a ha => hs a (List.mem_cons_of_mem c ha))

theorem plainValue_braceFree (s : String) (h : plainValue s = true) :
    ∀ c ∈ s.data, c ≠ '{' ∧ c ≠ '}' := by
  simp only [plainValue, List.all_eq_true, decide_eq_true_eq, not_or] at h
  intro c hc
  exact ⟨(h c hc).1, (h c hc).2.1⟩

theorem replaceAllL_brace_a_self :
    replaceAllL ['{', 'a', '}'] ['{', 'a', '}'] ['{', 'a', '}'] = ['{', 'a', '}'] := by
  rw [replaceAllL, if_pos ⟨by decide, by decide⟩]
  rw [show (['{', 'a', '}'] : List Char).drop (['{', 'a', '}'] : List Char).length = []
    from by decide]
  rw [replaceAllL]
  rfl

theorem cex_substitution_eval :
    substitutePrompt "\x7ba\x7d" (getInputVariables "\x7ba\x7d") [("a", "\x7ba\x7d")] =
      "\x7ba\x7d" := by
  rw [show getInputVariables "\x7ba\x7d" = ["a"] from by decide]
  show replaceAllStr "\x7ba\x7d" ("\x7b" ++ "a" ++ "\x7d") (lookupJS [("a", "\x7ba\x7d")] "a") =
    "\x7ba\x7d"
  rw [show lookupJS [("a", "\x7ba\x7d")] "a" = "\x7ba\x7d" from by decide]
  unfold replaceAllStr
  rw [show ("\x7b" ++ "a" ++ "\x7d").data = ['{', 'a', '}'] from by decide,
    show ("\x7ba\x7d" : String).data = ['{', 'a', '}'] from by decide,
    replaceAllL_brace_a_self]

/-- C1 counterexample: with template `{a}` and the provided value of `a`
being itself the text `{a}`, every extracted placeholder name has a value,
construction succeeds — and the resulting worker prompt still contains the
placeholder `{a}` for the extracted name `a`, because
`'{a}'.replaceAll('{a}', '{a}')` leaves it in place.  This refutes the
claim's "no remaining placeholder occurrence" conclusion as stated. -/
theorem worker_init_substitution_cex :
    "a" ∈ getInputVariables "\x7ba\x7d" ∧
    checkInputVariables (getInputVariables "\x7ba\x7d") [("a", "\x7ba\x7d")] = true ∧
    (Worker_MultiAgents.initT cexInputsC1 parseAlwaysFails).1.toOption.map
      (fun o => o.workerPrompt) = some "\x7ba\x7d" ∧
    containsSubStr "\x7ba\x7d" ("\x7b" ++ "a" ++ "\x7d") = true := by
  refine ⟨by decide, by decide, ?_, by decide⟩
  have hrun : (Worker_MultiAgents.initT cexInputsC1 parseAlwaysFails).1.toOption.map
      (fun o => o.workerPrompt) =
      some (substitutePrompt "\x7ba\x7d" (getInputVariables "\x7ba\x7d")
        [("a", "\x7ba\x7d")]) := rfl
  rw [hrun, cex_substitution_eval]

/-- C1, amended.  For template `T` and value mapping `V` (worker name given
and non-empty, values supplied as an object, no tools): if some extracted
placeholder name is not a key of `V`, `init` fails with the Configuration
error "Worker input variables values are not provided!" (and `createAgent`
is not reached); if every extracted name is a key of `V`, construction
succeeds and the worker prompt is the sequential `replaceAll` substitution
of the template; moreover the substituted prompt contains no remaining
`{name}` occurrence for any extracted name PROVIDED the template's braces
all belong to placeholders (witnessed by a segment decomposition) and no
provided value contains a brace or dollar character — without that proviso a
value such as `{a}` can leave a placeholder in place (see the
counterexample). -/
theorem worker_init_substitution :
    ∀ (T : String) (V : List (String × String)) (wn : String) (sup : Supervisor)
      (mi : Option String) (mdl : Option ChatModel)
      (parser : String → Except String (List (String × String))),
      ¬ wn = "" →
      (checkInputVariables (getInputVariables T) V = false →
        Worker_MultiAgents.initT ⟨[], T, some wn, sup, mi, mdl, some (.obj V)⟩ parser =
          (.error "Worker input variables values are not provided!", false)) ∧
      (checkInputVariables (getInputVariables T) V = true →
        ∃ out, Worker_MultiAgents.initT ⟨[], T, some wn, sup, mi, mdl, some (.obj V)⟩ parser =
            (.ok out, true) ∧
          out.workerPrompt = substitutePrompt T (getInputVariables T) V) ∧
      (∀ segs, T = renderSegs segs → wfSegs segs = true →
        (∀ pr ∈ V, plainValue pr.2 = true) →
        ∀ x ∈ getInputVariables T,
          containsSubStr (substitutePrompt T (getInputVariables T) V)
            ("\x7b" ++ x ++ "\x7d") = false) := by
  intro T V wn sup mi mdl parser hwn
  refine ⟨?_, ?_, ?_⟩
  · intro hcheck
    simp [Worker_MultiAgents.initT, hwn, hcheck]
  · intro hcheck
    refine ⟨{ agent := .chain (match mdl with | some m => m | none => sup.llm)
                (substitutePrompt T (getInputVariables T) V ++ workerBoilerplate)
              name := normalizeWorkerName wn
              label := wn
              type := "worker"
              workerPrompt := substitutePrompt T (getInputVariables T) V
              workerInputVariables := getInputVariables T
              parentSupervisorName := sup.name.getD "supervisor" }, ?_, rfl⟩
    simp only [Worker_MultiAgents.initT, if_neg hwn]
    rw [if_neg (by simp [hcheck])]
    rfl
  · intro segs hT hwf hplain x hx
    subst hT
    have hnames_eq : extractVarsAux (renderSegs segs).data none = segNames segs :=
      extractVars_render segs hwf
    have hb : ∀ c ∈ (substitutePrompt (renderSegs segs)
        (getInputVariables (renderSegs segs)) V).data, c ≠ '{' ∧ c ≠ '}' := by
      refine substitutePrompt_braceFree (getInputVariables (renderSegs segs)) segs V hwf
        ?_ ?_ ?_
      · intro y hy
        have hy2 : y ∈ segNames segs := by
          have hmem := mem_of_mem_dedupAux y _ [] hy
          rwa [hnames_eq] at hmem
        exact (braceFreeL_iff _).mp (segNames_braceFree segs hwf y hy2)
      · intro pr hpr
        exact plainValue_braceFree pr.2 (hplain pr hpr)
      · intro y hy
        refine mem_dedupAux_of_mem y _ [] ?_ (by simp)
        rw [hnames_eq]
        exact hy
    unfold containsSubStr
    exact containsSubL_false_of_braceFree _ hb _

/-- Witness for C1: the spec's end-to-end example.  With `topic` missing
from the values, construction fails with the Configuration error; with both
values provided (plain text), the substituted prompt retains no `{role}`
placeholder. -/
theorem worker_init_substitution_witness :
    Worker_MultiAgents.initT
      { tools := [], workerPrompt := "You are \x7brole\x7d, answer about \x7btopic\x7d.",
        workerName := some "w", supervisor := supA, maxIterations := none, model := none,
        promptValues := some (.obj [("role", "analyst")]) } parseAlwaysFails =
      (Except.error "Worker input variables values are not provided!", false) ∧
    containsSubStr
      (substitutePrompt "You are \x7brole\x7d, answer about \x7btopic\x7d."
        (getInputVariables "You are \x7brole\x7d, answer about \x7btopic\x7d.")
        [("role", "analyst"), ("topic", "markets")]) ("\x7b" ++ "role" ++ "\x7d") = false :=
  ⟨(worker_init_substitution "You are \x7brole\x7d, answer about \x7btopic\x7d."
      [("role", "analyst")] "w" supA none none parseAlwaysFails (by decide)).1 (by decide),
   (worker_init_substitution "You are \x7brole\x7d, answer about \x7btopic\x7d."
      [("role", "analyst"), ("topic", "markets")] "w" supA none none parseAlwaysFails
      (by decide)).2.2 okSegs (by decide) (by decide) (by decide) "role" (by decide)⟩
